import Mathlib

/-!
Verification development for the POS backup/export subsystem
(`src/services/backupService.ts` and the backup router).

The TypeScript service is shallowly embedded: filesystem and archiver
effects are modelled by an abstract `Fs` state (the set of paths present
plus, for each archive built, the list of paths it captured), and an
environment `Env` records which concrete I/O operations fail during a run
(failing `mkdir`/`write`/`rm` paths as lists, plus flags for the copy,
archive, stat and checksum steps).  Exceptions are modelled with
`Except String`; `BM α = Fs → Except String α × Fs` is the state-and-
exception monad in which the body of `createFullBackup` runs — state is
kept on a thrown error, as in the source, where files written before a
failure stay on disk.
-/

deriving instance DecidableEq for Except

namespace POSBackup

/-- JSON-ish runtime values occurring in the in-memory records
(`products`, `sales`, ...).  `undef` stands for JavaScript `undefined`
(a missing property read) and `nil` for `null`. -/
inductive Value where
  | str : String → Value
  | num : Int → Value
  | bool : Bool → Value
  | nil : Value
  | undef : Value
deriving DecidableEq, Repr

/-- A record is an ordered key→value mapping (JS object, insertion order). -/
abbrev Rec := List (String × Value)

/-- Property read `r[k]`: the first binding of `k`, `undefined` when absent. -/
def getFieldD (r : Rec) (k : String) : Value :=
  match r.find? (fun kv => kv.1 == k) with
  | some kv => kv.2
  | none => Value.undef

/-- Status field of `BackupMetadata` (`'pending' | 'completed' | 'failed'`). -/
inductive Status where
  | pending
  | completed
  | failed
deriving DecidableEq, Repr

/-- One backup-history record (interface `BackupMetadata`).  `timestamp`
is milliseconds since epoch (`Date.getTime()`). -/
structure BackupMetadata where
  id : String
  timestamp : Nat
  type : String
  size : Nat
  path : String
  checksum : String
  collections : Option (List String) := none
  status : Status
  error : Option String := none
deriving DecidableEq, Repr

/-- Options of `createFullBackup`; each field is an optional boolean
(`undefined` modelled as `none`). -/
structure BackupOptions where
  includeUploads : Option Bool := none
  includeDatabase : Option Bool := none
  includeLogs : Option Bool := none
  compression : Option Bool := none
deriving DecidableEq, Repr

/-- Abstract filesystem: the set of paths present (directories and files),
and for each archive ever built, the paths it captured from its source
directory. -/
structure Fs where
  files : List String := []
  archives : List (String × List String) := []
deriving DecidableEq, Repr

/-- Environment of one run: which I/O operations fail, and the results of
the successful `stat`/checksum calls.  `now` is `Date.now()` at the start
of the run. -/
structure Env where
  now : Nat := 0
  mkdirFails : List String := []
  writeFails : List String := []
  filesCopyFails : Bool := false
  logsCopyFails : Bool := false
  archiveFails : Bool := false
  statFails : Bool := false
  statSize : Nat := 0
  checksumFails : Bool := false
  checksumVal : String := ""
  rmFails : List String := []
deriving DecidableEq, Repr

/-- State-and-exception monad of the backup body: the filesystem state is
kept even when an exception is thrown (files created before the failure
remain on disk). -/
def BM (α : Type) : Type := Fs → Except String α × Fs

instance : Monad BM where
  pure a := fun fs => (Except.ok a, fs)
  bind x f := fun fs =>
    match x fs with
    | (Except.ok a, fs') => f a fs'
    | (Except.error e, fs') => (Except.error e, fs')

/-- Throw an exception (message only, as in `new Error(msg)`). -/
def throwBM {α : Type} (e : String) : BM α := fun fs => (Except.error e, fs)

/-- Run `x`; on exception run the handler (TypeScript `try`/`catch`). -/
def catchBM {α : Type} (x : BM α) (h : String → BM α) : BM α := fun fs =>
  match x fs with
  | (Except.ok a, fs') => (Except.ok a, fs')
  | (Except.error e, fs') => h e fs'

/-- Read the filesystem state. -/
def getFs : BM Fs := fun fs => (Except.ok fs, fs)

/-- Update the filesystem state. -/
def modifyFs (f : Fs → Fs) : BM Unit := fun fs => (Except.ok (), f fs)

/-- Model of `fs.mkdir(p, {recursive:true})`. -/
def fsMkdir (env : Env) (p : String) : BM Unit :=
  if p ∈ env.mkdirFails then throwBM ("mkdir failed: " ++ p)
  else modifyFs (fun fs => { fs with files := p :: fs.files })

/-- Model of `fs.writeFile(p, ...)`. -/
def fsWrite (env : Env) (p : String) : BM Unit :=
  if p ∈ env.writeFails then throwBM ("write failed: " ++ p)
  else modifyFs (fun fs => { fs with files := p :: fs.files })

/-- Character containment test on the underlying character list
(`String.contains`, in a form the kernel evaluates). -/
def strContains (s : String) (c : Char) : Bool := s.data.contains c

/-- Path-prefix test on the underlying character lists
(`String.isPrefixOf`, in a form the kernel evaluates). -/
def strIsPrefixOf (p s : String) : Bool := p.data.isPrefixOf s.data

/-- Model of `fs.rm(p, {recursive:true})`: removes `p` and everything
under it. -/
def fsRm (env : Env) (p : String) : BM Unit :=
  if p ∈ env.rmFails then throwBM ("rm failed: " ++ p)
  else modifyFs (fun fs => { fs with files := fs.files.filter (fun q => !(strIsPrefixOf p q)) })

/-- Backup root directory (`path.join(process.cwd(), 'backups')`). -/
def backupDir : String := "backups"

/-- Path of the persisted history document `backup-history.json`. -/
def historyPath : String := backupDir ++ "/backup-history.json"

/-- Collection names exported by `exportCollectionsAsJSON` (fixed list;
`customers` is commented out in the source). -/
def collectionNames : List String := ["products", "sales", "users", "suppliers", "purchaseorders"]

/-- Model of `exportCollectionsAsJSON`: writes `<collection>.json` for each
collection; a failed write is caught, logged and skipped (the loop
continues, nothing is re-thrown). -/
def exportCollectionsAsJSON (env : Env) (backupPath : String) : BM Unit := do
  for c in collectionNames do
    catchBM (fsWrite env (backupPath ++ "/" ++ c ++ ".json")) (fun _ => pure ())

/-- Model of `backupDatabase`: creates the `database` staging subdirectory
then exports the collections. -/
def backupDatabase (env : Env) (backupPath : String) : BM Unit := do
  let dbBackupPath := backupPath ++ "/database"
  fsMkdir env dbBackupPath
  exportCollectionsAsJSON env dbBackupPath

/-- Model of `backupFiles`: creates the `files` staging subdirectory, then
if `public/uploads` exists copies it (a copy error propagates); if it does
not exist the copy is skipped with a warning. -/
def backupFiles (env : Env) (backupPath : String) : BM Unit := do
  let filesBackupPath := backupPath ++ "/files"
  fsMkdir env filesBackupPath
  let fs ← getFs
  if "public/uploads" ∈ fs.files then
    if env.filesCopyFails then throwBM "files copy failed"
    else modifyFs (fun fs => { fs with files := (filesBackupPath ++ "/uploads") :: fs.files })

/-- Model of `backupLogs`: same contract as `backupFiles`, applied to the
`logs` directory. -/
def backupLogs (env : Env) (backupPath : String) : BM Unit := do
  let logsBackupPath := backupPath ++ "/logs"
  fsMkdir env logsBackupPath
  let fs ← getFs
  if "logs" ∈ fs.files then
    if env.logsCopyFails then throwBM "logs copy failed"
    else modifyFs (fun fs => { fs with files := (logsBackupPath ++ "/copied") :: fs.files })

/-- Model of `createArchive`: builds `backups/<archiveName>` capturing every
path under the source directory; an archiver error propagates. -/
def createArchive (env : Env) (sourcePath : String) (archiveName : String) : BM String := do
  let archivePath := backupDir ++ "/" ++ archiveName
  if env.archiveFails then throwBM "archive failed"
  else do
    let fs ← getFs
    let contents := fs.files.filter (fun q => strIsPrefixOf sourcePath q)
    modifyFs (fun fs => { fs with
      files := archivePath :: fs.files,
      archives := (archivePath, contents) :: fs.archives })
    pure archivePath

/-- Body of `createFullBackup` after the guard: the `try` block of the
source (staging mkdir, snapshot writers, archive, stat, checksum).
Returns the final artifact path, its size and checksum. -/
def backupBodySteps (env : Env) (opts : BackupOptions) (backupId : String) :
    BM (String × Nat × String) := do
  let backupPath := backupDir ++ "/" ++ backupId
  fsMkdir env backupPath
  if opts.includeDatabase ≠ some false then backupDatabase env backupPath
  if opts.includeUploads ≠ some false then backupFiles env backupPath
  if opts.includeLogs = some true then backupLogs env backupPath
  let finalPath ←
    if opts.compression ≠ some false then do
      let ap ← createArchive env backupPath (backupId ++ ".tar.gz")
      fsRm env backupPath
      pure ap
    else pure backupPath
  let size ← if env.statFails then throwBM "stat failed" else pure env.statSize
  let checksum ← if env.checksumFails then throwBM "checksum failed" else pure env.checksumVal
  pure (finalPath, size, checksum)

/-- Whole service state: the single-flight guard, the in-memory history,
the abstract filesystem, and the contents of the persisted history
document (`none` when the file does not exist). -/
structure BackupState where
  isBackupRunning : Bool := false
  backupHistory : List BackupMetadata := []
  fs : Fs := {}
  persisted : Option (List BackupMetadata) := none
deriving DecidableEq, Repr

/-- Model of `saveBackupHistory`: rewrites the persisted document with the
in-memory history; a write error is caught and logged, never re-thrown,
leaving the persisted document unchanged. -/
def saveBackupHistory (env : Env) (hist : List BackupMetadata)
    (persisted : Option (List BackupMetadata)) : Option (List BackupMetadata) :=
  if historyPath ∈ env.writeFails then persisted else some hist

/-- Backup id generated at the start of a run (`backup_${Date.now()}`). -/
def backupIdOf (env : Env) : String := "backup_" ++ toString env.now

/-- Metadata record as first created by `createFullBackup`
(`status: 'pending'`, empty artifact fields). -/
def pendingMetaOf (env : Env) : BackupMetadata :=
  { id := backupIdOf env, timestamp := env.now, type := "full",
    size := 0, path := "", checksum := "", status := Status.pending }

/-- Metadata record pushed on the success path of `createFullBackup`. -/
def completedMetaOf (env : Env) (finalPath : String) (size : Nat) (checksum : String) :
    BackupMetadata :=
  { pendingMetaOf env with
    path := finalPath, size := size, checksum := checksum, status := Status.completed }

/-- Metadata record pushed on the failure path of `createFullBackup`. -/
def failedMetaOf (env : Env) (e : String) : BackupMetadata :=
  { pendingMetaOf env with status := Status.failed, error := some e }

/-- Model of `createFullBackup`.  Guard check and early throw; then the
body; on success a `completed` record is pushed and persisted, on any body
exception a `failed` record (with the error message) is pushed and
persisted and the same error is re-thrown; the guard is cleared in the
`finally` block on both paths. -/
def createFullBackup (env : Env) (opts : BackupOptions) (st : BackupState) :
    Except String BackupMetadata × BackupState :=
  if st.isBackupRunning then (Except.error "Backup is already in progress", st)
  else
    match backupBodySteps env opts (backupIdOf env) st.fs with
    | (Except.ok (finalPath, size, checksum), fs') =>
      let meta := completedMetaOf env finalPath size checksum
      let hist := st.backupHistory ++ [meta]
      (Except.ok meta,
        { isBackupRunning := false, backupHistory := hist, fs := fs',
          persisted := saveBackupHistory env hist st.persisted })
    | (Except.error e, fs') =>
      let meta := failedMetaOf env e
      let hist := st.backupHistory ++ [meta]
      (Except.error e,
        { isBackupRunning := false, backupHistory := hist, fs := fs',
          persisted := saveBackupHistory env hist st.persisted })

/-- Ascending-timestamp comparison used by `cleanupOldBackups`
(`sort((a, b) => a.timestamp - b.timestamp)`). -/
def tsAsc (a b : BackupMetadata) : Prop := a.timestamp ≤ b.timestamp

instance : DecidableRel tsAsc := fun a b => Nat.decLe a.timestamp b.timestamp

instance : IsTotal BackupMetadata tsAsc :=
  ⟨fun a b => Nat.le_total a.timestamp b.timestamp⟩

instance : IsTrans BackupMetadata tsAsc :=
  ⟨fun _ _ _ hab hbc => Nat.le_trans hab hbc⟩

/-- Descending-timestamp comparison used by `getBackupHistory`
(`sort((a, b) => b.timestamp - a.timestamp)`). -/
def tsDesc (a b : BackupMetadata) : Prop := b.timestamp ≤ a.timestamp

instance : DecidableRel tsDesc := fun a b => Nat.decLe b.timestamp a.timestamp

instance : IsTotal BackupMetadata tsDesc :=
  ⟨fun a b => Nat.le_total b.timestamp a.timestamp⟩

instance : IsTrans BackupMetadata tsDesc :=
  ⟨fun _ _ _ hab hbc => Nat.le_trans hbc hab⟩

/-- Completed history records sorted oldest first by timestamp
(`sortedBackups` local of `cleanupOldBackups`).  JavaScript's
`Array.prototype.sort` is a stable sort, and a stable sort by a total
preorder is unique as a function, so it is modelled by a stable insertion
sort. -/
def completedSortedAsc (st : BackupState) : List BackupMetadata :=
  List.insertionSort tsAsc
    (st.backupHistory.filter (fun b => b.status == Status.completed))

/-- Records selected for deletion by one cleanup run: the oldest
`count - maxBackups` completed records. -/
def backupsToDelete (maxBackups : Nat) (st : BackupState) : List BackupMetadata :=
  (completedSortedAsc st).take ((completedSortedAsc st).length - maxBackups)

/-- One iteration of the cleanup loop: delete the artifact of `b` and drop
its record; a delete failure is caught and logged, leaving the state
untouched (record retained). -/
def cleanupStep (env : Env) (acc : BackupState) (b : BackupMetadata) : BackupState :=
  if b.path ∈ env.rmFails then acc
  else
    { acc with
      fs := { acc.fs with
        files := acc.fs.files.filter (fun q => !(strIsPrefixOf b.path q)) },
      backupHistory := acc.backupHistory.filter (fun r => r.id ≠ b.id) }

/-- Model of `cleanupOldBackups` (the `maxBackups` field of the service,
30 by default, is passed explicitly).  If at most `maxBackups` completed
records exist this is a no-op; otherwise the excess oldest artifacts are
deleted and their records dropped, a failing delete being caught and that
record retained; the whole function never throws (the source wraps
everything in `try`/`catch`), hence it is total here. -/
def cleanupOldBackups (env : Env) (maxBackups : Nat) (st : BackupState) : BackupState :=
  if (completedSortedAsc st).length ≤ maxBackups then st
  else
    let st' := (backupsToDelete maxBackups st).foldl (cleanupStep env) st
    { st' with persisted := saveBackupHistory env st'.backupHistory st'.persisted }

/-- Model of `getBackupHistory`: a copy of the history sorted newest first
by timestamp (`sort((a, b) => b.timestamp - a.timestamp)`, a stable sort,
modelled by a stable insertion sort). -/
def getBackupHistory (st : BackupState) : List BackupMetadata :=
  List.insertionSort tsDesc st.backupHistory

/-! Export engine (`exportData` and its per-collection getters). -/

/-- Options of one export operation (interface `ExportOptions`); the date
range bounds are `Date.getTime()` values. -/
structure ExportOptions where
  collection : String
  format : String
  dateRange : Option (Nat × Nat) := none
  filters : Option (List (String × Value)) := none
  fields : Option (List String) := none
deriving DecidableEq, Repr

/-- Exact-match filter step shared by the getters: a record is kept iff
every `filters` key maps to a strictly-equal value
(`item[key] === value`, a missing key reading as `undefined`). -/
def matchesFilters (fl : List (String × Value)) (item : Rec) : Bool :=
  fl.all (fun kv => getFieldD item kv.1 == kv.2)

/-- Model of `getProductsData`: exact-match filters, then field projection
when `fields` is given (each output record holds exactly those keys, a
missing source key reading as `undefined`). -/
def getProductsData (products : List Rec) (options : ExportOptions) : List Rec :=
  let data := products
  let data :=
    match options.filters with
    | some fl => data.filter (matchesFilters fl)
    | none => data
  match options.fields with
  | some fds => data.map (fun item => fds.map (fun f => (f, getFieldD item f)))
  | none => data

/-- Creation timestamp of a sale (`new Date(sale.createdAt).getTime()`);
sales records always carry a numeric (or date-valued) `createdAt`. -/
def saleCreatedAt (sale : Rec) : Int :=
  match getFieldD sale "createdAt" with
  | Value.num n => n
  | _ => 0

/-- Model of `getSalesData`: date-range filter (inclusive bounds on
`createdAt`), then exact-match filters.  No field projection is applied
(the source has no `options.fields` branch here). -/
def getSalesData (sales : List Rec) (options : ExportOptions) : List Rec :=
  let data := sales
  let data :=
    match options.dateRange with
    | some (s, e) => data.filter (fun sale => (s : Int) ≤ saleCreatedAt sale ∧ saleCreatedAt sale ≤ (e : Int))
    | none => data
  match options.filters with
  | some fl => data.filter (matchesFilters fl)
  | none => data

/-- Model of `getInventoryData`: maps every product to a fixed nine-field
inventory record; `options` is not consulted at all (no date range, no
filters, no projection). -/
def getInventoryData (products : List Rec) (_options : ExportOptions) : List Rec :=
  products.map (fun product =>
    [("id", getFieldD product "id"),
     ("name", getFieldD product "name"),
     ("category", getFieldD product "category"),
     ("currentStock", getFieldD product "quantity"),
     ("barcode", getFieldD product "barcode"),
     ("cost", getFieldD product "cost"),
     ("price", getFieldD product "price"),
     ("supplierId", getFieldD product "supplierId"),
     ("minStockLevel", getFieldD product "minStockLevel")])

/-- CSV rendering of one cell (`exportToCSV`): `null`/`undefined` render
empty, a string containing the delimiter is quoted with `""`-escaping,
anything else renders as JavaScript `String(value)`. -/
def csvCell : Value → String
  | Value.nil => ""
  | Value.undef => ""
  | Value.str s =>
    if strContains s ',' then "\"" ++ s.replace "\"" "\"\"" ++ "\"" else s
  | Value.num n => toString n
  | Value.bool b => cond b "true" "false"

/-- Model of `exportToCSV`: empty data gives an empty file; otherwise a
header row of the first record's keys, then one row per record in that
exact column order, rows joined with a newline (no trailing newline). -/
def exportToCSV (data : List Rec) : String :=
  match data with
  | [] => ""
  | first :: _ =>
    let headers := first.map (fun kv => kv.1)
    String.intercalate "\n"
      (String.intercalate "," headers ::
        data.map (fun row =>
          String.intercalate "," (headers.map (fun h => csvCell (getFieldD row h)))))

/-- Contents of the file written by one export: for JSON the record list
(the file holds its pretty-printed `JSON.stringify`), for CSV the exact
text produced by `exportToCSV`. -/
inductive ExportedFile where
  | json : List Rec → ExportedFile
  | csv : String → ExportedFile
deriving DecidableEq, Repr

/-- Model of `exportData` over the in-memory `products` and `sales`
collections: dispatches on the collection (unsupported ones fail fast),
runs the per-collection getter, then serializes in the requested format
(unsupported ones fail fast).  Returns the written file's base name and
contents; the filtered record list is what gets serialized. -/
def exportData (products sales : List Rec) (options : ExportOptions) :
    Except String (String × List Rec × ExportedFile) := do
  let (data, fileName) ←
    match options.collection with
    | "products" => Except.ok (getProductsData products options, "products")
    | "sales" => Except.ok (getSalesData sales options, "sales")
    | "inventory" => Except.ok (getInventoryData products options, "inventory")
    | c => Except.error ("Unsupported collection: " ++ c)
  match options.format with
  | "json" => Except.ok (fileName ++ ".json", data, ExportedFile.json data)
  | "csv" => Except.ok (fileName ++ ".csv", data, ExportedFile.csv (exportToCSV data))
  | f => Except.error ("Unsupported format: " ++ f)

/-! Download resolution (router `GET /download/:filename`). -/

/-- Contiguous-sublist test on character lists (helper for `hasSubstr`). -/
def listHasInfix : (s sub : List Char) → Bool
  | [], sub => sub.isEmpty
  | s@(_ :: t), sub => sub.isPrefixOf s || listHasInfix t sub

/-- Substring test (`String.prototype.includes` with a string argument). -/
def hasSubstr (s sub : String) : Bool := listHasInfix s.data sub.data

/-- Result of resolving a download request. -/
inductive DownloadResult where
  | invalidFilename
  | notFound
  | found : String → DownloadResult
deriving DecidableEq, Repr

/-- Predicate of the security check: the requested name contains `..` or a
path separator. -/
def isTraversal (filename : String) : Bool :=
  hasSubstr filename ".." || strContains filename '/' || strContains filename '\\'

/-- Model of the `/download/:filename` handler's path resolution: reject
traversal names before touching the filesystem, then look in the backups
root (flat), then in each subdirectory of `backups/exports` in directory
order; first match wins, otherwise not found.  `files` is the set of
paths on disk and `exportDirs` the listing of `backups/exports`. -/
def resolveDownload (files : List String) (exportDirs : List String)
    (filename : String) : DownloadResult :=
  if isTraversal filename then DownloadResult.invalidFilename
  else
    let rootPath := backupDir ++ "/" ++ filename
    if rootPath ∈ files then DownloadResult.found rootPath
    else
      match exportDirs.find? (fun d => (backupDir ++ "/exports/" ++ d ++ "/" ++ filename) ∈ files) with
      | some d => DownloadResult.found (backupDir ++ "/exports/" ++ d ++ "/" ++ filename)
      | none => DownloadResult.notFound

/-! Shared shape lemmas about `createFullBackup`. -/

/-- Guarded early exit: with the guard held, `createFullBackup` throws and
returns the state unchanged. -/
theorem createFullBackup_guarded (env : Env) (opts : BackupOptions) (st : BackupState)
    (h : st.isBackupRunning = true) :
    createFullBackup env opts st = (Except.error "Backup is already in progress", st) := by
  simp [createFullBackup, h]

/-- Success path of `createFullBackup`, as an equation. -/
theorem createFullBackup_ok (env : Env) (opts : BackupOptions) (st : BackupState)
    (h : st.isBackupRunning = false) (fp : String) (sz : Nat) (ck : String) (fs' : Fs)
    (hbody : backupBodySteps env opts (backupIdOf env) st.fs = (Except.ok (fp, sz, ck), fs')) :
    createFullBackup env opts st =
      (Except.ok (completedMetaOf env fp sz ck),
        { isBackupRunning := false,
          backupHistory := st.backupHistory ++ [completedMetaOf env fp sz ck],
          fs := fs',
          persisted := saveBackupHistory env
            (st.backupHistory ++ [completedMetaOf env fp sz ck]) st.persisted }) := by
  simp [createFullBackup, h, hbody]

/-- Failure path of `createFullBackup`, as an equation. -/
theorem createFullBackup_err (env : Env) (opts : BackupOptions) (st : BackupState)
    (h : st.isBackupRunning = false) (e : String) (fs' : Fs)
    (hbody : backupBodySteps env opts (backupIdOf env) st.fs = (Except.error e, fs')) :
    createFullBackup env opts st =
      (Except.error e,
        { isBackupRunning := false,
          backupHistory := st.backupHistory ++ [failedMetaOf env e],
          fs := fs',
          persisted := saveBackupHistory env
            (st.backupHistory ++ [failedMetaOf env e]) st.persisted }) := by
  simp [createFullBackup, h, hbody]

/-- Case split on the outcome of one `createFullBackup` call: guarded
early exit, success, or failure. -/
theorem createFullBackup_cases (env : Env) (opts : BackupOptions) (st : BackupState) :
    (createFullBackup env opts st).2 = st ∨
    (∃ fp sz ck, (createFullBackup env opts st).2.backupHistory =
        st.backupHistory ++ [completedMetaOf env fp sz ck] ∧
      (createFullBackup env opts st).2.persisted =
        saveBackupHistory env (st.backupHistory ++ [completedMetaOf env fp sz ck]) st.persisted) ∨
    (∃ e, (createFullBackup env opts st).2.backupHistory =
        st.backupHistory ++ [failedMetaOf env e] ∧
      (createFullBackup env opts st).2.persisted =
        saveBackupHistory env (st.backupHistory ++ [failedMetaOf env e]) st.persisted) := by
  by_cases h : st.isBackupRunning
  · left
    rw [createFullBackup_guarded env opts st h]
  · rcases hbody : backupBodySteps env opts (backupIdOf env) st.fs with ⟨res, fs'⟩
    cases res with
    | ok v =>
      obtain ⟨fp, sz, ck⟩ := v
      right; left
      refine ⟨fp, sz, ck, ?_, ?_⟩ <;>
        rw [createFullBackup_ok env opts st (by simpa using h) fp sz ck fs' hbody]
    | error e =>
      right; right
      refine ⟨e, ?_, ?_⟩ <;>
        rw [createFullBackup_err env opts st (by simpa using h) e fs' hbody]

/-- Concrete happy-path environment used by witnesses. -/
def envHappy : Env := { now := 7, statSize := 100, checksumVal := "abc" }

/-! Claim C1. -/

/-- C1: a `createFullBackup` call made while another backup run is in
progress fails immediately with the backup-in-progress error and performs
no side effects: the returned state (staging filesystem, in-memory
history, persisted history document, guard) is exactly the input state. -/
theorem createFullBackup_inProgress_noSideEffects (env : Env) (opts : BackupOptions)
    (st : BackupState) (h : st.isBackupRunning = true) :
    createFullBackup env opts st = (Except.error "Backup is already in progress", st) := by
  simp [createFullBackup, h]

/-- Witness for C1: a concrete call with the guard held. -/
theorem createFullBackup_inProgress_noSideEffects_witness :
    createFullBackup envHappy {} { isBackupRunning := true } =
      (Except.error "Backup is already in progress", { isBackupRunning := true }) :=
  createFullBackup_inProgress_noSideEffects envHappy {} { isBackupRunning := true } rfl

/-! Claim C2. -/

/-- C2: the guard is cleared on every exit path of a run that acquired
it; and whenever a step after the guard throws, exactly one record is
appended to the history, that record has `status = failed` with the error
message populated, and the same error is re-raised to the caller. -/
theorem createFullBackup_failureProtocol :
    (∀ (env : Env) (opts : BackupOptions) (st : BackupState),
        st.isBackupRunning = false →
        (createFullBackup env opts st).2.isBackupRunning = false) ∧
    (∀ (env : Env) (opts : BackupOptions) (st : BackupState) (e : String) (fs' : Fs),
        st.isBackupRunning = false →
        backupBodySteps env opts (backupIdOf env) st.fs = (Except.error e, fs') →
        (createFullBackup env opts st).1 = Except.error e ∧
        (createFullBackup env opts st).2.backupHistory =
          st.backupHistory ++ [failedMetaOf env e] ∧
        (failedMetaOf env e).status = Status.failed ∧
        (failedMetaOf env e).error = some e) := by
  constructor
  · intro env opts st h
    rcases hbody : backupBodySteps env opts (backupIdOf env) st.fs with ⟨res, fs'⟩
    cases res with
    | ok v =>
      obtain ⟨fp, sz, ck⟩ := v
      rw [createFullBackup_ok env opts st h fp sz ck fs' hbody]
    | error e =>
      rw [createFullBackup_err env opts st h e fs' hbody]
  · intro env opts st e fs' h hbody
    rw [createFullBackup_err env opts st h e fs' hbody]
    exact ⟨rfl, rfl, rfl, rfl⟩

/-- Concrete environment in which the archive-building step throws. -/
def envArchiveFail : Env := { envHappy with archiveFails := true }

/-- Filesystem state left by the failing concrete run of C2's witness. -/
def fsArchiveFail : Fs :=
  { files := ["backups/backup_7/files", "backups/backup_7/database/purchaseorders.json",
      "backups/backup_7/database/suppliers.json", "backups/backup_7/database/users.json",
      "backups/backup_7/database/sales.json", "backups/backup_7/database/products.json",
      "backups/backup_7/database", "backups/backup_7"] }

/-- Witness for C2 at a concrete run whose archive step throws. -/
theorem createFullBackup_failureProtocol_witness :
    (createFullBackup envArchiveFail {} {}).2.isBackupRunning = false ∧
    ((createFullBackup envArchiveFail {} {}).1 = Except.error "archive failed" ∧
      (createFullBackup envArchiveFail {} {}).2.backupHistory =
        ({} : BackupState).backupHistory ++ [failedMetaOf envArchiveFail "archive failed"] ∧
      (failedMetaOf envArchiveFail "archive failed").status = Status.failed ∧
      (failedMetaOf envArchiveFail "archive failed").error = some "archive failed") :=
  ⟨createFullBackup_failureProtocol.1 envArchiveFail {} {} rfl,
    createFullBackup_failureProtocol.2 envArchiveFail {} {} "archive failed" fsArchiveFail
      rfl (by decide)⟩

/-! Claim C5. -/

/-- Environment of C5's counterexample: every backup step succeeds, but
the write of `backup-history.json` fails. -/
def envHistoryWriteFail : Env := { envHappy with writeFails := [historyPath] }

/-- C5 counterexample: in a run where persisting the history document
fails, `createFullBackup` still returns successfully (no error reaches the
caller), the completed record sits in the in-memory history, and the
persisted document is left unchanged — so a failed history write is not
fatal and not propagated, contrary to the claim. -/
theorem historyWriteFailure_not_propagated :
    (createFullBackup envHistoryWriteFail {} {}).1 =
      Except.ok (completedMetaOf envHistoryWriteFail "backups/backup_7.tar.gz" 100 "abc") ∧
    (createFullBackup envHistoryWriteFail {} {}).2.persisted = none ∧
    (createFullBackup envHistoryWriteFail {} {}).2.backupHistory =
      [completedMetaOf envHistoryWriteFail "backups/backup_7.tar.gz" 100 "abc"] := by
  refine ⟨by decide, by decide, by decide⟩

/-- C5 amended: a failed write of `backup-history.json` is caught and
logged inside `saveBackupHistory` and never propagated: the persisted
document is simply left unchanged, and the outcome of `createFullBackup`
(success or the re-raised step error) is unaffected — in particular a run
whose steps all succeed still returns the completed metadata. -/
theorem historyWriteFailure_swallowed (env : Env) (opts : BackupOptions) (st : BackupState)
    (hw : historyPath ∈ env.writeFails) (h : st.isBackupRunning = false) :
    (createFullBackup env opts st).2.persisted = st.persisted ∧
    (∀ fp sz ck fs',
      backupBodySteps env opts (backupIdOf env) st.fs = (Except.ok (fp, sz, ck), fs') →
      (createFullBackup env opts st).1 = Except.ok (completedMetaOf env fp sz ck)) := by
  constructor
  · rcases hbody : backupBodySteps env opts (backupIdOf env) st.fs with ⟨res, fs'⟩
    cases res with
    | ok v =>
      obtain ⟨fp, sz, ck⟩ := v
      rw [createFullBackup_ok env opts st h fp sz ck fs' hbody]
      simp [saveBackupHistory, hw]
    | error e =>
      rw [createFullBackup_err env opts st h e fs' hbody]
      simp [saveBackupHistory, hw]
  · intro fp sz ck fs' hbody
    rw [createFullBackup_ok env opts st h fp sz ck fs' hbody]

/-- Witness for C5's amended theorem at the concrete counterexample run. -/
theorem historyWriteFailure_swallowed_witness :
    (createFullBackup envHistoryWriteFail {} {}).2.persisted = ({} : BackupState).persisted ∧
    (createFullBackup envHistoryWriteFail {} {}).1 =
      Except.ok (completedMetaOf envHistoryWriteFail "backups/backup_7.tar.gz" 100 "abc") :=
  ⟨(historyWriteFailure_swallowed envHistoryWriteFail {} {} (by decide) rfl).1,
    (historyWriteFailure_swallowed envHistoryWriteFail {} {} (by decide) rfl).2
      "backups/backup_7.tar.gz" 100 "abc"
      { files := [], archives := [("backups/backup_7.tar.gz",
          ["backups/backup_7/files", "backups/backup_7/database/purchaseorders.json",
           "backups/backup_7/database/suppliers.json", "backups/backup_7/database/users.json",
           "backups/backup_7/database/sales.json", "backups/backup_7/database/products.json",
           "backups/backup_7/database", "backups/backup_7"])] }
      (by decide)⟩

/-! Claim C9. -/

/-- Products collection of the CSV export scenario. -/
def productsScenario : List Rec :=
  [[("id", Value.num 1), ("name", Value.str "Coffee")],
   [("id", Value.num 2), ("name", Value.str "Tea")]]

/-- C9 counterexample: the scenario export produces
`id,name\n1,Coffee\n2,Tea` — rows separated by newlines with no trailing
newline — which differs from the claimed content ending in a newline. -/
theorem exportCSV_scenario_noTrailingNewline :
    exportData productsScenario [] { collection := "products", format := "csv" } =
      Except.ok ("products.csv", productsScenario,
        ExportedFile.csv "id,name\n1,Coffee\n2,Tea") ∧
    "id,name\n1,Coffee\n2,Tea" ≠ "id,name\n1,Coffee\n2,Tea\n" := by
  refine ⟨by decide, by decide⟩

/-- C9 amended: the scenario export produces exactly the text
`id,name` newline `1,Coffee` newline `2,Tea` — a header row followed by
the two data rows in storage order, rows separated by newlines, with no
newline after the final row. -/
theorem exportCSV_scenario_content :
    exportData productsScenario [] { collection := "products", format := "csv" } =
      Except.ok ("products.csv", productsScenario,
        ExportedFile.csv "id,name\n1,Coffee\n2,Tea") := by
  decide

/-! Claim C3. -/

/-- Status carried by the outcome of a `createFullBackup` call, `none`
when the call threw. -/
def resultStatus : Except String BackupMetadata → Option Status
  | Except.ok m => some m.status
  | Except.error _ => none

/-- Contents captured by the archive at path `p`, empty when no such
archive was built. -/
def archiveContents (st : BackupState) (p : String) : List String :=
  match st.fs.archives.find? (fun a => a.1 == p) with
  | some a => a.2
  | none => []

/-- Environment in which serializing collection `c` during the database
snapshot throws, and every other step succeeds. -/
def envCollectionFail (c : String) : Env :=
  { envHappy with writeFails := ["backups/backup_7/database/" ++ c ++ ".json"] }

/-- C3: when serializing one collection throws during the database
snapshot, that collection is skipped and the run is not aborted: the call
still returns a record with `status = completed`, exactly that one
completed record is appended to the history, and the artifact archive
contains the files of all the other collections but not the failed one. -/
theorem exportCollections_partialFailure :
    ∀ c ∈ collectionNames,
      resultStatus (createFullBackup (envCollectionFail c) {} {}).1 = some Status.completed ∧
      (createFullBackup (envCollectionFail c) {} {}).2.backupHistory.map
        (fun m => m.status) = [Status.completed] ∧
      (∀ c' ∈ collectionNames, c' ≠ c →
        ("backups/backup_7/database/" ++ c' ++ ".json") ∈
          archiveContents (createFullBackup (envCollectionFail c) {} {}).2
            "backups/backup_7.tar.gz") ∧
      ("backups/backup_7/database/" ++ c ++ ".json") ∉
        archiveContents (createFullBackup (envCollectionFail c) {} {}).2
          "backups/backup_7.tar.gz" := by
  decide

/-- Witness for C3 with the `sales` collection failing: the run completes
and the archive holds `products.json` but no `sales.json`. -/
theorem exportCollections_partialFailure_witness :
    resultStatus (createFullBackup (envCollectionFail "sales") {} {}).1 =
      some Status.completed ∧
    ("backups/backup_7/database/" ++ "products" ++ ".json") ∈
      archiveContents (createFullBackup (envCollectionFail "sales") {} {}).2
        "backups/backup_7.tar.gz" ∧
    ("backups/backup_7/database/" ++ "sales" ++ ".json") ∉
      archiveContents (createFullBackup (envCollectionFail "sales") {} {}).2
        "backups/backup_7.tar.gz" :=
  ⟨(exportCollections_partialFailure "sales" (by decide)).1,
    (exportCollections_partialFailure "sales" (by decide)).2.2.1 "products"
      (by decide) (by decide),
    (exportCollections_partialFailure "sales" (by decide)).2.2.2⟩

/-! Claim C7. -/

/-- C7: download resolution rejects every name containing `..` or a path
separator with the invalid-filename result, independently of the
filesystem contents (so before any filesystem access) — in particular the
three traversal probes of the spec are rejected; for a valid name it
returns the file in the backups root when present there, otherwise the
first exports subdirectory (in listing order) containing the file, and
reports not-found when no root contains it. -/
theorem resolveDownload_spec :
    (∀ (files exportDirs : List String) (filename : String),
        isTraversal filename = true →
        resolveDownload files exportDirs filename = DownloadResult.invalidFilename) ∧
    (isTraversal "../../etc/passwd" = true ∧ isTraversal "a/b" = true ∧
      isTraversal "a\\b" = true) ∧
    (∀ (files exportDirs : List String) (filename : String),
        isTraversal filename = false →
        (backupDir ++ "/" ++ filename) ∈ files →
        resolveDownload files exportDirs filename =
          DownloadResult.found (backupDir ++ "/" ++ filename)) ∧
    (∀ (files pre post : List String) (d filename : String),
        isTraversal filename = false →
        (backupDir ++ "/" ++ filename) ∉ files →
        (∀ d' ∈ pre, (backupDir ++ "/exports/" ++ d' ++ "/" ++ filename) ∉ files) →
        (backupDir ++ "/exports/" ++ d ++ "/" ++ filename) ∈ files →
        resolveDownload files (pre ++ d :: post) filename =
          DownloadResult.found (backupDir ++ "/exports/" ++ d ++ "/" ++ filename)) ∧
    (∀ (files exportDirs : List String) (filename : String),
        isTraversal filename = false →
        (backupDir ++ "/" ++ filename) ∉ files →
        (∀ d ∈ exportDirs, (backupDir ++ "/exports/" ++ d ++ "/" ++ filename) ∉ files) →
        resolveDownload files exportDirs filename = DownloadResult.notFound) := by
  refine ⟨?_, ⟨by decide, by decide, by decide⟩, ?_, ?_, ?_⟩
  · intro files exportDirs filename h
    simp [resolveDownload, h]
  · intro files exportDirs filename h hmem
    simp [resolveDownload, h, hmem]
  · intro files pre post d filename h hroot hpre hd
    have hfind : (pre ++ d :: post).find?
        (fun d' => decide ((backupDir ++ "/exports/" ++ d' ++ "/" ++ filename) ∈ files)) =
          some d := by
      induction pre with
      | nil => simp [List.find?_cons_of_pos, hd]
      | cons a t ih =>
        rw [List.cons_append, List.find?_cons_of_neg, ih]
        · intro x hx
          exact hpre x (List.mem_cons_of_mem a hx)
        · simpa using hpre a (List.mem_cons_self a t)
    simp [resolveDownload, h, hroot, hfind]
  · intro files exportDirs filename h hroot hnone
    have hfind : exportDirs.find?
        (fun d' => decide ((backupDir ++ "/exports/" ++ d' ++ "/" ++ filename) ∈ files)) =
          none := by
      rw [List.find?_eq_none]
      intro x hx
      simpa using hnone x hx
    simp [resolveDownload, h, hroot, hfind]

/-- Witness for C7: a traversal probe is rejected, a file in the backups
root resolves there, the first matching exports subdirectory wins, and a
missing file reports not-found. -/
theorem resolveDownload_spec_witness :
    resolveDownload ["etc/passwd"] ["e1"] "../../etc/passwd" =
      DownloadResult.invalidFilename ∧
    resolveDownload ["backups/b.tar.gz"] [] "b.tar.gz" =
      DownloadResult.found (backupDir ++ "/" ++ "b.tar.gz") ∧
    resolveDownload ["backups/exports/e2/x.csv"] (["e1"] ++ "e2" :: ["e3"]) "x.csv" =
      DownloadResult.found (backupDir ++ "/exports/" ++ "e2" ++ "/" ++ "x.csv") ∧
    resolveDownload ["backups/other.csv"] ["e1"] "x.csv" = DownloadResult.notFound :=
  ⟨resolveDownload_spec.1 ["etc/passwd"] ["e1"] "../../etc/passwd" (by decide),
    resolveDownload_spec.2.2.1 ["backups/b.tar.gz"] [] "b.tar.gz" (by decide) (by decide),
    resolveDownload_spec.2.2.2.1 ["backups/exports/e2/x.csv"] ["e1"] ["e3"] "e2" "x.csv"
      (by decide) (by decide) (by decide) (by decide),
    resolveDownload_spec.2.2.2.2 ["backups/other.csv"] ["e1"] "x.csv"
      (by decide) (by decide) (by decide)⟩

/-! Claim C6. -/

/-- Keys of every record output by `getProductsData` are exactly the
requested fields, whenever a projection list is given. -/
theorem getProductsData_keys (ps : List Rec) (options : ExportOptions) (fds : List String)
    (hf : options.fields = some fds) :
    ∀ r ∈ getProductsData ps options, r.map (fun kv => kv.1) = fds := by
  intro r hr
  unfold getProductsData at hr
  rw [hf] at hr
  simp only [List.mem_map] at hr
  obtain ⟨item, _, rfl⟩ := hr
  rw [List.map_map]
  have hcomp : ((fun kv : String × Value => kv.1) ∘ fun f => (f, getFieldD item f)) = id := rfl
  rw [hcomp, List.map_id]

/-- Sales export counterexample record: one sale with three keys. -/
def salesProjProbe : List Rec :=
  [[("id", Value.num 1), ("total", Value.num 5), ("createdAt", Value.num 0)]]

/-- C6 counterexample: exporting the `sales` collection with
`fields = ["id"]` returns the record with all three of its keys — the
field-projection step of the claimed pipeline is not applied to sales. -/
theorem exportData_salesProjection_missing :
    exportData [] salesProjProbe
        { collection := "sales", format := "json", fields := some ["id"] } =
      Except.ok ("sales.json", salesProjProbe, ExportedFile.json salesProjProbe) ∧
    salesProjProbe.map (fun r => r.map (fun kv => kv.1)) = [["id", "total", "createdAt"]] ∧
    (["id", "total", "createdAt"] : List String) ≠ ["id"] := by
  refine ⟨by decide, by decide, by decide⟩

/-- C6 amended: the pipeline is per collection.  Products: exact-match
filters then field projection, in that order (output keys are exactly
`fields`), with the date range ignored.  Sales: date-range filter then
exact-match filters, records passed through unprojected (`fields` is
ignored).  Inventory: a fixed mapping of the products, ignoring every
option.  Through `exportData`, a products export with `fields` therefore
yields records holding exactly those keys, while a sales export never
projects. -/
theorem exportData_pipeline_amended :
    (∀ (ps : List Rec) (options : ExportOptions) (fl : List (String × Value))
        (fds : List String), options.filters = some fl → options.fields = some fds →
        getProductsData ps options =
          (ps.filter (matchesFilters fl)).map
            (fun item => fds.map (fun f => (f, getFieldD item f)))) ∧
    (∀ (ps : List Rec) (options : ExportOptions) (dr : Option (Nat × Nat)),
        getProductsData ps { options with dateRange := dr } = getProductsData ps options) ∧
    (∀ (ss : List Rec) (options : ExportOptions) (s e : Nat),
        options.dateRange = some (s, e) →
        ∀ r ∈ getSalesData ss options,
          r ∈ ss ∧ (s : Int) ≤ saleCreatedAt r ∧ saleCreatedAt r ≤ (e : Int)) ∧
    (∀ (ss : List Rec) (options : ExportOptions) (fl : List (String × Value)),
        options.filters = some fl →
        ∀ r ∈ getSalesData ss options, matchesFilters fl r = true) ∧
    (∀ (ss : List Rec) (options : ExportOptions),
        (∀ r ∈ getSalesData ss options, r ∈ ss) ∧
        (∀ fds : Option (List String),
          getSalesData ss { options with fields := fds } = getSalesData ss options)) ∧
    (∀ (ps : List Rec) (o o' : ExportOptions), getInventoryData ps o = getInventoryData ps o') ∧
    (∀ (ps ss : List Rec) (options : ExportOptions) (fds : List String)
        (fn : String) (data : List Rec) (file : ExportedFile),
        options.collection = "products" → options.fields = some fds →
        exportData ps ss options = Except.ok (fn, data, file) →
        ∀ r ∈ data, r.map (fun kv => kv.1) = fds) := by
  refine ⟨?_, ?_, ?_, ?_, ?_, ?_, ?_⟩
  · intro ps options fl fds hfl hfds
    simp [getProductsData, hfl, hfds]
  · intro ps options dr
    rfl
  · intro ss options s e hdr r hr
    unfold getSalesData at hr
    rw [hdr] at hr
    rcases hfl : options.filters with _ | fl <;> rw [hfl] at hr
    · have h := List.mem_filter.mp hr
      have hb : (s : Int) ≤ saleCreatedAt r ∧ saleCreatedAt r ≤ (e : Int) := by
        simpa using h.2
      exact ⟨h.1, hb.1, hb.2⟩
    · have h1 := List.mem_filter.mp hr
      have h2 := List.mem_filter.mp h1.1
      have hb : (s : Int) ≤ saleCreatedAt r ∧ saleCreatedAt r ≤ (e : Int) := by
        simpa using h2.2
      exact ⟨h2.1, hb.1, hb.2⟩
  · intro ss options fl hfl r hr
    unfold getSalesData at hr
    rw [hfl] at hr
    rcases hdr : options.dateRange with _ | se <;> rw [hdr] at hr
    · exact (List.mem_filter.mp hr).2
    · exact (List.mem_filter.mp hr).2
  · intro ss options
    constructor
    · intro r hr
      unfold getSalesData at hr
      rcases hdr : options.dateRange with _ | ⟨s, e⟩ <;> rw [hdr] at hr <;>
        rcases hfl : options.filters with _ | fl <;> rw [hfl] at hr
      · exact hr
      · exact (List.mem_filter.mp hr).1
      · exact (List.mem_filter.mp hr).1
      · exact (List.mem_filter.mp (List.mem_filter.mp hr).1).1
    · intro fds
      rfl
  · intro ps o o'
    rfl
  · intro ps ss options fds fn data file hcol hfds hexp
    have hdata : data = getProductsData ps options := by
      simp only [exportData, hcol, bind, Except.bind] at hexp
      split at hexp
      · exact (by injection hexp with h; injection h with _ h; injection h with h _; exact h.symm)
      · exact (by injection hexp with h; injection h with _ h; injection h with h _; exact h.symm)
      · exact absurd hexp (by simp)
    subst hdata
    exact getProductsData_keys ps options fds hfds

/-- Witness for C6's amended theorem at concrete inputs: products project
to exactly the requested keys, sales keep all their keys, inventory
ignores the options. -/
theorem exportData_pipeline_amended_witness :
    getProductsData [[("id", Value.num 1), ("name", Value.str "Coffee")]]
        { collection := "products", format := "json",
          filters := some [("id", Value.num 1)], fields := some ["name"] } =
      [[("name", Value.str "Coffee")]] ∧
    (∀ r ∈ getSalesData salesProjProbe
        { collection := "sales", format := "json", fields := some ["id"] }, r ∈ salesProjProbe) ∧
    getInventoryData [[("id", Value.num 1)]]
        { collection := "inventory", format := "json", fields := some ["id"] } =
      getInventoryData [[("id", Value.num 1)]]
        { collection := "inventory", format := "csv" } :=
  ⟨by
    rw [exportData_pipeline_amended.1 [[("id", Value.num 1), ("name", Value.str "Coffee")]]
      { collection := "products", format := "json",
        filters := some [("id", Value.num 1)], fields := some ["name"] }
      [("id", Value.num 1)] ["name"] rfl rfl]
    decide,
   (exportData_pipeline_amended.2.2.2.2.1 salesProjProbe
      { collection := "sales", format := "json", fields := some ["id"] }).1,
   exportData_pipeline_amended.2.2.2.2.2.1 [[("id", Value.num 1)]]
      { collection := "inventory", format := "json", fields := some ["id"] }
      { collection := "inventory", format := "csv" }⟩

/-! Shared lemmas about the cleanup loop. -/

/-- History left by the cleanup loop: exactly the records whose id is not
the id of a successfully deleted backup. -/
theorem foldl_cleanupStep_history (env : Env) (l : List BackupMetadata) (st : BackupState) :
    (l.foldl (cleanupStep env) st).backupHistory =
      st.backupHistory.filter
        (fun r => l.all (fun b => decide (b.path ∈ env.rmFails) || r.id != b.id)) := by
  induction l generalizing st with
  | nil => simp
  | cons b t ih =>
    rw [List.foldl_cons, ih]
    unfold cleanupStep
    by_cases hb : b.path ∈ env.rmFails
    · rw [if_pos hb]
      refine (List.filter_congr ?_).symm
      intro x _
      simp [hb]
    · rw [if_neg hb]
      simp only [BackupState.backupHistory]
      rw [List.filter_filter]
      refine (List.filter_congr ?_).symm
      intro x _
      by_cases hx : x.id = b.id <;> simp [hx, hb]

/-- Files left on disk by the cleanup loop: exactly those not under the
artifact path of a successfully deleted backup. -/
theorem foldl_cleanupStep_files (env : Env) (l : List BackupMetadata) (st : BackupState) :
    (l.foldl (cleanupStep env) st).fs.files =
      st.fs.files.filter
        (fun q => l.all (fun b => decide (b.path ∈ env.rmFails) || !(strIsPrefixOf b.path q))) := by
  induction l generalizing st with
  | nil => simp
  | cons b t ih =>
    rw [List.foldl_cons, ih]
    unfold cleanupStep
    by_cases hb : b.path ∈ env.rmFails
    · rw [if_pos hb]
      refine (List.filter_congr ?_).symm
      intro x _
      simp [hb]
    · rw [if_neg hb]
      simp only []
      rw [List.filter_filter]
      refine (List.filter_congr ?_).symm
      intro x _
      by_cases hx : strIsPrefixOf b.path x <;> simp [hx, hb]

/-- Cleanup only ever removes history records; it never inserts or edits. -/
theorem cleanup_history_sublist (env : Env) (maxBackups : Nat) (st : BackupState) :
    (cleanupOldBackups env maxBackups st).backupHistory.Sublist st.backupHistory := by
  unfold cleanupOldBackups
  split
  · exact List.Sublist.refl _
  · show ((backupsToDelete maxBackups st).foldl (cleanupStep env) st).backupHistory.Sublist
      st.backupHistory
    rw [foldl_cleanupStep_history]
    exact List.filter_sublist _

/-! Claim C8. -/

/-- C8: the history is append-only — one `createFullBackup` call only ever
appends a suffix to the record list (existing records keep their position
and fields), cleanup only ever removes records (the surviving history is a
sublist of the old one, records unchanged) — and `getBackupHistory`
always returns exactly the stored records (a permutation) sorted
newest-first by timestamp. -/
theorem history_appendOnly_newestFirst :
    (∀ st : BackupState,
      (getBackupHistory st).Perm st.backupHistory ∧
      (getBackupHistory st).Pairwise (fun a b => b.timestamp ≤ a.timestamp)) ∧
    (∀ (env : Env) (opts : BackupOptions) (st : BackupState),
      ∃ t, (createFullBackup env opts st).2.backupHistory = st.backupHistory ++ t) ∧
    (∀ (env : Env) (maxBackups : Nat) (st : BackupState),
      (cleanupOldBackups env maxBackups st).backupHistory.Sublist st.backupHistory) := by
  refine ⟨?_, ?_, cleanup_history_sublist⟩
  · intro st
    constructor
    · exact List.perm_insertionSort tsDesc st.backupHistory
    · exact List.sorted_insertionSort tsDesc st.backupHistory
  · intro env opts st
    rcases createFullBackup_cases env opts st with h | ⟨fp, sz, ck, h, _⟩ | ⟨e, h, _⟩
    · exact ⟨[], by rw [h, List.append_nil]⟩
    · exact ⟨[completedMetaOf env fp sz ck], h⟩
    · exact ⟨[failedMetaOf env e], h⟩

/-! Claim C10. -/

/-- Any record of the history after a `createFullBackup` call is either an
old record or carries a terminal status. -/
theorem createFullBackup_history_members (env : Env) (opts : BackupOptions)
    (st : BackupState) (m : BackupMetadata)
    (hm : m ∈ (createFullBackup env opts st).2.backupHistory) :
    m ∈ st.backupHistory ∨ m.status = Status.completed ∨ m.status = Status.failed := by
  rcases createFullBackup_cases env opts st with h | ⟨fp, sz, ck, h, _⟩ | ⟨e, h, _⟩
  · rw [h] at hm
    exact Or.inl hm
  · rw [h] at hm
    rcases List.mem_append.mp hm with h1 | h1
    · exact Or.inl h1
    · simp only [List.mem_singleton] at h1
      subst h1
      exact Or.inr (Or.inl rfl)
  · rw [h] at hm
    rcases List.mem_append.mp hm with h1 | h1
    · exact Or.inl h1
    · simp only [List.mem_singleton] at h1
      subst h1
      exact Or.inr (Or.inr rfl)

/-- Any record of the persisted document after a `createFullBackup` call
comes from the previous persisted document or from the new in-memory
history. -/
theorem createFullBackup_persisted_members (env : Env) (opts : BackupOptions)
    (st : BackupState) (h : List BackupMetadata)
    (hp : (createFullBackup env opts st).2.persisted = some h)
    (m : BackupMetadata) (hm : m ∈ h) :
    (∃ h0, st.persisted = some h0 ∧ m ∈ h0) ∨
      m ∈ (createFullBackup env opts st).2.backupHistory := by
  rcases createFullBackup_cases env opts st with heq | ⟨fp, sz, ck, hh, hper⟩ | ⟨e, hh, hper⟩
  · rw [heq] at hp
    exact Or.inl ⟨h, hp, hm⟩
  · rw [hper] at hp
    unfold saveBackupHistory at hp
    split at hp
    · exact Or.inl ⟨h, hp, hm⟩
    · rw [hh]
      injection hp with hp
      rw [hp]
      exact Or.inr hm
  · rw [hper] at hp
    unfold saveBackupHistory at hp
    split at hp
    · exact Or.inl ⟨h, hp, hm⟩
    · rw [hh]
      injection hp with hp
      rw [hp]
      exact Or.inr hm

/-- C10: every record a `createFullBackup` call appends to the history has
a terminal status (`completed` or `failed`) — the initial `pending` record
is never appended — and consequently, starting from a history and a
persisted document free of `pending` records, both the listing returned by
`getBackupHistory` and any persisted document after the call contain no
`pending` record. -/
theorem history_records_terminal :
    (∀ (env : Env) (opts : BackupOptions) (st : BackupState) (m : BackupMetadata),
        m ∈ (createFullBackup env opts st).2.backupHistory → m ∉ st.backupHistory →
        (m.status = Status.completed ∨ m.status = Status.failed)) ∧
    (∀ (env : Env) (opts : BackupOptions) (st : BackupState),
        (∀ m ∈ st.backupHistory, m.status ≠ Status.pending) →
        (∀ h, st.persisted = some h → ∀ m ∈ h, m.status ≠ Status.pending) →
        (∀ m ∈ getBackupHistory (createFullBackup env opts st).2,
            m.status ≠ Status.pending) ∧
        (∀ h, (createFullBackup env opts st).2.persisted = some h →
            ∀ m ∈ h, m.status ≠ Status.pending)) := by
  constructor
  · intro env opts st m hm hnot
    rcases createFullBackup_history_members env opts st m hm with h | h | h
    · exact absurd h hnot
    · exact Or.inl h
    · exact Or.inr h
  · intro env opts st hhist hpers
    have hampl : ∀ m ∈ (createFullBackup env opts st).2.backupHistory,
        m.status ≠ Status.pending := by
      intro m hm
      rcases createFullBackup_history_members env opts st m hm with h | h | h
      · exact hhist m h
      · rw [h]; exact fun hc => Status.noConfusion hc
      · rw [h]; exact fun hc => Status.noConfusion hc
    constructor
    · intro m hm
      have : m ∈ (createFullBackup env opts st).2.backupHistory := by
        unfold getBackupHistory at hm
        exact (List.perm_insertionSort tsDesc _).mem_iff.mp hm
      exact hampl m this
    · intro h hp m hm
      rcases createFullBackup_persisted_members env opts st h hp m hm with ⟨h0, h0eq, hm0⟩ | hmem
      · exact hpers h0 h0eq m hm0
      · exact hampl m hmem

/-- Witness for C10: the record appended by a concrete successful run has
a terminal status, and no observer of that run's history sees `pending`. -/
theorem history_records_terminal_witness :
    ((completedMetaOf envHappy "backups/backup_7.tar.gz" 100 "abc").status = Status.completed ∨
      (completedMetaOf envHappy "backups/backup_7.tar.gz" 100 "abc").status = Status.failed) ∧
    (∀ m ∈ getBackupHistory (createFullBackup envHappy {} {}).2,
        m.status ≠ Status.pending) :=
  ⟨history_records_terminal.1 envHappy {} {}
      (completedMetaOf envHappy "backups/backup_7.tar.gz" 100 "abc") (by decide) (by decide),
    (history_records_terminal.2 envHappy {} {} (by decide)
      (fun h hh => Option.noConfusion hh)).1⟩

/-! Claim C4. -/

/-- Every character list is a prefix of itself. -/
theorem listIsPrefixOf_refl : ∀ l : List Char, l.isPrefixOf l = true := by
  intro l
  induction l with
  | nil => rfl
  | cons a t ih => simp [List.isPrefixOf, ih]

/-- Every path is a prefix of itself. -/
theorem strIsPrefixOf_refl (p : String) : strIsPrefixOf p p = true :=
  listIsPrefixOf_refl p.data

/-- History after one cleanup run in the non-trivial case. -/
theorem cleanup_history_eq (env : Env) (maxBackups : Nat) (st : BackupState)
    (hlt : maxBackups < (completedSortedAsc st).length) :
    (cleanupOldBackups env maxBackups st).backupHistory =
      st.backupHistory.filter
        (fun r => (backupsToDelete maxBackups st).all
          (fun b => decide (b.path ∈ env.rmFails) || r.id != b.id)) := by
  unfold cleanupOldBackups
  rw [if_neg (not_le.mpr hlt)]
  exact foldl_cleanupStep_history env _ st

/-- Files on disk after one cleanup run in the non-trivial case. -/
theorem cleanup_files_eq (env : Env) (maxBackups : Nat) (st : BackupState)
    (hlt : maxBackups < (completedSortedAsc st).length) :
    (cleanupOldBackups env maxBackups st).fs.files =
      st.fs.files.filter
        (fun q => (backupsToDelete maxBackups st).all
          (fun b => decide (b.path ∈ env.rmFails) || !(strIsPrefixOf b.path q))) := by
  unfold cleanupOldBackups
  rw [if_neg (not_le.mpr hlt)]
  exact foldl_cleanupStep_files env _ st

/-- Records selected for deletion are completed records of the history. -/
theorem backupsToDelete_mem (maxBackups : Nat) (st : BackupState) :
    ∀ b ∈ backupsToDelete maxBackups st,
      b ∈ st.backupHistory ∧ b.status = Status.completed := by
  intro b hb
  have h1 : b ∈ completedSortedAsc st := List.take_subset _ _ hb
  have h2 : b ∈ st.backupHistory.filter (fun r => r.status == Status.completed) :=
    (List.perm_insertionSort tsAsc _).mem_iff.mp h1
  have h3 := List.mem_filter.mp h2
  exact ⟨h3.1, by simpa using h3.2⟩

/-- C4: cleanup considers only completed records (records with any other
status always survive); with at most `maxBackups` completed records it is
a no-op; otherwise the selection is exactly the `count - maxBackups`
oldest completed records (every selected record is completed, no newer
than any unselected completed record, and the selection has exactly that
length), and in any run — deletes failing or not — each selected record
whose artifact delete succeeds is removed from the history and from disk
(cleanup continues with the rest past failures of other deletes), each
selected record whose delete fails is retained in the history, every
history record outside the selection survives (no over-deletion), and
when every delete succeeds exactly `maxBackups` completed records remain.
The function is total, so no exception escapes its boundary.  The history
ids are assumed unique, as the spec stipulates for record ids. -/
theorem cleanupOldBackups_retention (env : Env) (maxBackups : Nat) (st : BackupState)
    (hnodup : (st.backupHistory.map (fun r => r.id)).Nodup) :
    ((completedSortedAsc st).length ≤ maxBackups →
        cleanupOldBackups env maxBackups st = st) ∧
    (∀ m ∈ st.backupHistory, m.status ≠ Status.completed →
        m ∈ (cleanupOldBackups env maxBackups st).backupHistory) ∧
    (maxBackups < (completedSortedAsc st).length →
      ((backupsToDelete maxBackups st).length =
          (completedSortedAsc st).length - maxBackups ∧
        (∀ b ∈ backupsToDelete maxBackups st, b.status = Status.completed) ∧
        (∀ b ∈ backupsToDelete maxBackups st,
          ∀ m ∈ completedSortedAsc st, m ∉ backupsToDelete maxBackups st →
            b.timestamp ≤ m.timestamp)) ∧
      (∀ b ∈ backupsToDelete maxBackups st,
        (b.path ∉ env.rmFails →
          b ∉ (cleanupOldBackups env maxBackups st).backupHistory ∧
          b.path ∉ (cleanupOldBackups env maxBackups st).fs.files) ∧
        (b.path ∈ env.rmFails →
          b ∈ (cleanupOldBackups env maxBackups st).backupHistory)) ∧
      (∀ m ∈ st.backupHistory, m ∉ backupsToDelete maxBackups st →
        m ∈ (cleanupOldBackups env maxBackups st).backupHistory) ∧
      ((∀ b ∈ backupsToDelete maxBackups st, b.path ∉ env.rmFails) →
        ((cleanupOldBackups env maxBackups st).backupHistory.filter
            (fun b => b.status == Status.completed)).length = maxBackups)) := by
  have hinj := List.inj_on_of_nodup_map hnodup
  refine ⟨?_, ?_, ?_⟩
  · intro hle
    unfold cleanupOldBackups
    rw [if_pos hle]
  · intro m hm hstat
    by_cases hle : (completedSortedAsc st).length ≤ maxBackups
    · unfold cleanupOldBackups
      rw [if_pos hle]
      exact hm
    · rw [cleanup_history_eq env maxBackups st (not_le.mp hle)]
      refine List.mem_filter.mpr ⟨hm, List.all_eq_true.mpr ?_⟩
      intro b hb
      by_cases hbp : b.path ∈ env.rmFails
      · simp [hbp]
      · simp only [hbp, decide_eq_true_eq, decide_False, Bool.false_or, bne_iff_ne, ne_eq]
        intro heq
        obtain ⟨hbh, hbc⟩ := backupsToDelete_mem maxBackups st b hb
        exact hstat (hinj hm hbh heq ▸ hbc)
  · intro hlt
    have hhist := cleanup_history_eq env maxBackups st hlt
    have hperm : (completedSortedAsc st).Perm
        (st.backupHistory.filter (fun b => b.status == Status.completed)) :=
      List.perm_insertionSort tsAsc _
    have hsortnodup : ((completedSortedAsc st).map (fun r => r.id)).Nodup := by
      refine (List.Perm.nodup_iff (hperm.map _)).mpr ?_
      exact ((List.filter_sublist _).map _).nodup hnodup
    have hsplit := List.take_append_drop
      ((completedSortedAsc st).length - maxBackups) (completedSortedAsc st)
    refine ⟨⟨?_, ?_, ?_⟩, ?_, ?_, ?_⟩
    · -- the selection has exactly count - maxBackups records
      unfold backupsToDelete
      rw [List.length_take]
      exact min_eq_left (Nat.sub_le _ _)
    · -- every selected record is completed
      intro b hb
      exact (backupsToDelete_mem maxBackups st b hb).2
    · -- the selection is the oldest: no unselected completed record is
      -- older than a selected one
      intro b hb m hm hmnot
      have hpw : List.Pairwise tsAsc (completedSortedAsc st) :=
        List.sorted_insertionSort tsAsc _
      rw [← hsplit] at hpw
      have hcross := (List.pairwise_append.mp hpw).2.2
      have hm' : m ∈ (completedSortedAsc st).take
            ((completedSortedAsc st).length - maxBackups) ++
          (completedSortedAsc st).drop ((completedSortedAsc st).length - maxBackups) := by
        rw [hsplit]
        exact hm
      rcases List.mem_append.mp hm' with h | h
      · exact absurd h hmnot
      · exact hcross b hb m h
    · -- mixed run, record by record: a successful delete removes the
      -- record and its artifact regardless of other deletes failing, a
      -- failed delete retains the record
      intro b hb
      constructor
      · intro hbp
        constructor
        · intro hmem
          rw [hhist] at hmem
          have hP := (List.mem_filter.mp hmem).2
          have hself := List.all_eq_true.mp hP b hb
          simp [hbp] at hself
        · intro hmem
          rw [cleanup_files_eq env maxBackups st hlt] at hmem
          have hq := (List.mem_filter.mp hmem).2
          have hself := List.all_eq_true.mp hq b hb
          simp [hbp, strIsPrefixOf_refl] at hself
      · intro hbp
        rw [hhist]
        obtain ⟨hbh, _⟩ := backupsToDelete_mem maxBackups st b hb
        refine List.mem_filter.mpr ⟨hbh, List.all_eq_true.mpr ?_⟩
        intro b' hb'
        by_cases hbp' : b'.path ∈ env.rmFails
        · simp [hbp']
        · simp only [hbp', decide_False, Bool.false_or, bne_iff_ne, ne_eq]
          intro heq
          obtain ⟨hbh', _⟩ := backupsToDelete_mem maxBackups st b' hb'
          exact hbp' ((hinj hbh hbh' heq : b = b') ▸ hbp)
    · -- no over-deletion: every record outside the selection survives
      intro m hm hmnot
      rw [hhist]
      refine List.mem_filter.mpr ⟨hm, List.all_eq_true.mpr ?_⟩
      intro b hb
      by_cases hbp : b.path ∈ env.rmFails
      · simp [hbp]
      · simp only [hbp, decide_False, Bool.false_or, bne_iff_ne, ne_eq]
        intro heq
        obtain ⟨hbh, _⟩ := backupsToDelete_mem maxBackups st b hb
        refine hmnot ?_
        rw [hinj hm hbh heq]
        exact hb
    · -- fully successful run: exactly maxBackups completed records remain
      intro hsucc
      have hPfalse : ∀ b ∈ backupsToDelete maxBackups st,
          (backupsToDelete maxBackups st).all
            (fun b' => decide (b'.path ∈ env.rmFails) || b.id != b'.id) = false := by
        intro b hb
        refine Bool.eq_false_iff.mpr ?_
        intro hall
        have hself := List.all_eq_true.mp hall b hb
        simp [hsucc b hb] at hself
      have hdisj : ((backupsToDelete maxBackups st).map (fun r => r.id)).Disjoint
          (((completedSortedAsc st).drop
            ((completedSortedAsc st).length - maxBackups)).map (fun r => r.id)) := by
        have hn : (((backupsToDelete maxBackups st).map (fun r => r.id)) ++
            (((completedSortedAsc st).drop
              ((completedSortedAsc st).length - maxBackups)).map (fun r => r.id))).Nodup := by
          rw [← List.map_append]
          unfold backupsToDelete
          rw [hsplit]
          exact hsortnodup
        exact (List.nodup_append.mp hn).2.2
      have hPdrop : ∀ r ∈ (completedSortedAsc st).drop
          ((completedSortedAsc st).length - maxBackups),
          (backupsToDelete maxBackups st).all
            (fun b' => decide (b'.path ∈ env.rmFails) || r.id != b'.id) = true := by
        intro r hr
        refine List.all_eq_true.mpr ?_
        intro b hb
        by_cases hbp : b.path ∈ env.rmFails
        · simp [hbp]
        · simp only [hbp, decide_False, Bool.false_or, bne_iff_ne, ne_eq]
          intro heq
          exact hdisj (List.mem_map_of_mem _ hb) (heq ▸ List.mem_map_of_mem _ hr)
      rw [hhist, List.filter_filter]
      have hcomm : st.backupHistory.filter
          (fun a => (a.status == Status.completed) &&
            (backupsToDelete maxBackups st).all
              (fun b => decide (b.path ∈ env.rmFails) || a.id != b.id)) =
          (st.backupHistory.filter (fun b => b.status == Status.completed)).filter
            (fun a => (backupsToDelete maxBackups st).all
              (fun b => decide (b.path ∈ env.rmFails) || a.id != b.id)) := by
        rw [List.filter_filter]
        refine List.filter_congr ?_
        intro x _
        exact Bool.and_comm _ _
      rw [hcomm]
      rw [← (List.Perm.filter _ hperm).length_eq]
      conv_lhs => rw [← hsplit]
      rw [List.filter_append]
      have htake : ((completedSortedAsc st).take
          ((completedSortedAsc st).length - maxBackups)).filter
            (fun a => (backupsToDelete maxBackups st).all
              (fun b => decide (b.path ∈ env.rmFails) || a.id != b.id)) = [] := by
        refine List.filter_eq_nil_iff.mpr ?_
        intro b hb
        rw [hPfalse b hb]
        exact Bool.false_ne_true
      have hdropeq : ((completedSortedAsc st).drop
          ((completedSortedAsc st).length - maxBackups)).filter
            (fun a => (backupsToDelete maxBackups st).all
              (fun b => decide (b.path ∈ env.rmFails) || a.id != b.id)) =
          (completedSortedAsc st).drop
            ((completedSortedAsc st).length - maxBackups) := by
        refine List.filter_eq_self.mpr ?_
        intro r hr
        exact hPdrop r hr
      rw [htake, hdropeq, List.nil_append, List.length_drop]
      omega

/-- Completed record with the oldest timestamp in C4's witness history. -/
def recOldest : BackupMetadata :=
  { id := "a", timestamp := 1, type := "full", size := 1,
    path := "backups/a.tar.gz", checksum := "ca", status := Status.completed }

/-- Second-oldest completed record in C4's witness history. -/
def recMid : BackupMetadata :=
  { id := "b", timestamp := 2, type := "full", size := 1,
    path := "backups/b.tar.gz", checksum := "cb", status := Status.completed }

/-- Newest completed record in C4's witness history. -/
def recNew : BackupMetadata :=
  { id := "c", timestamp := 3, type := "full", size := 1,
    path := "backups/c.tar.gz", checksum := "cc", status := Status.completed }

/-- Failed record in C4's witness history. -/
def recFail : BackupMetadata :=
  { id := "f", timestamp := 4, type := "full", size := 0,
    path := "", checksum := "", status := Status.failed, error := some "boom" }

/-- Service state for C4's witness: three completed backups with artifacts
on disk and one failed record. -/
def stRetention : BackupState :=
  { backupHistory := [recNew, recFail, recOldest, recMid],
    fs := { files := ["backups/a.tar.gz", "backups/b.tar.gz", "backups/c.tar.gz"] } }

/-- Environment for C4's witness where deleting the oldest artifact fails. -/
def envRmFail : Env := { rmFails := ["backups/a.tar.gz"] }

/-- Witness for C4 at concrete runs: a no-op run; then a mixed run with
`maxBackups = 1` where deleting the oldest artifact fails — the failed
record and the unselected newest record survive, the oldest record is
retained (its delete failed) while the second-oldest is still removed
from history and disk (cleanup continued with the rest); the selection is
the two oldest completed records; and a fully successful run leaves
exactly one completed record. -/
theorem cleanupOldBackups_retention_witness :
    cleanupOldBackups {} 5 stRetention = stRetention ∧
    recFail ∈ (cleanupOldBackups envRmFail 1 stRetention).backupHistory ∧
    (backupsToDelete 1 stRetention).length = (completedSortedAsc stRetention).length - 1 ∧
    recOldest.timestamp ≤ recNew.timestamp ∧
    (recMid ∉ (cleanupOldBackups envRmFail 1 stRetention).backupHistory ∧
      recMid.path ∉ (cleanupOldBackups envRmFail 1 stRetention).fs.files) ∧
    recOldest ∈ (cleanupOldBackups envRmFail 1 stRetention).backupHistory ∧
    recNew ∈ (cleanupOldBackups envRmFail 1 stRetention).backupHistory ∧
    ((cleanupOldBackups {} 1 stRetention).backupHistory.filter
        (fun b => b.status == Status.completed)).length = 1 :=
  ⟨(cleanupOldBackups_retention {} 5 stRetention (by decide)).1 (by decide),
    (cleanupOldBackups_retention envRmFail 1 stRetention (by decide)).2.1 recFail
      (by decide) (by decide),
    ((cleanupOldBackups_retention envRmFail 1 stRetention (by decide)).2.2
      (by decide)).1.1,
    ((cleanupOldBackups_retention envRmFail 1 stRetention (by decide)).2.2
      (by decide)).1.2.2 recOldest (by decide) recNew (by decide) (by decide),
    (((cleanupOldBackups_retention envRmFail 1 stRetention (by decide)).2.2
      (by decide)).2.1 recMid (by decide)).1 (by decide),
    (((cleanupOldBackups_retention envRmFail 1 stRetention (by decide)).2.2
      (by decide)).2.1 recOldest (by decide)).2 (by decide),
    ((cleanupOldBackups_retention envRmFail 1 stRetention (by decide)).2.2
      (by decide)).2.2.1 recNew (by decide) (by decide),
    ((cleanupOldBackups_retention {} 1 stRetention (by decide)).2.2
      (by decide)).2.2.2 (by decide)⟩

end POSBackup
